import Mathlib

/-!
Verification development for the `ai_fitness_agent` repository
(`ai_agent_app.py`).  The application's plan-generation pipeline
(`get_ai_plan`), its input validator (`validate_user_inputs`) and the BMI
computation in `display_sidebar` are embedded as executable Lean
definitions over `List Char` (Python `str`), `Int` and `ℚ`.

The pipeline calls Python's `json.loads`; since the claims quantify over
raw response texts, the standard-library JSON parser is embedded as a
fuel-based recursive-descent parser (`jsonLoads`) that is strict about
trailing commas and full input consumption, exactly as Python's `json`
module in its default configuration.  Numbers are kept as their raw
lexemes (no claim inspects a numeric value).  `\uXXXX` escapes outside
the valid scalar range decode to the null character, a harmless corner
never reached by any claim.
-/

namespace FitAI

/-- Backtick character, written by code point to keep source plain. -/
def backtick : Char := Char.ofNat 96

/-- Opening brace character. -/
def lbrace : Char := Char.ofNat 123

/-- Closing brace character. -/
def rbrace : Char := Char.ofNat 125

/-- Whitespace skipped by Python's JSON parser: space, tab, LF, CR. -/
def isJsonWs (c : Char) : Bool :=
  c = ' ' || c = '\t' || c = '\n' || c = '\r'

/-- ASCII whitespace removed by Python's `str.strip()` (the subset that can
occur here: space, tab, LF, CR, vertical tab, form feed). -/
def isPyWs (c : Char) : Bool :=
  c = ' ' || c = '\t' || c = '\n' || c = '\r' || c = Char.ofNat 11 || c = Char.ofNat 12

/-- Drop leading JSON whitespace, as the scanner does between tokens. -/
def skipWs (l : List Char) : List Char := l.dropWhile isJsonWs

/-- Python `str.strip()`: remove leading and trailing whitespace. -/
def pyStrip (l : List Char) : List Char :=
  ((l.dropWhile isPyWs).reverse.dropWhile isPyWs).reverse

/-- Python `str.startswith(pat)` on character lists. -/
def startswith : List Char → List Char → Bool
  | _, [] => true
  | [], _ :: _ => false
  | c :: cs, p :: ps => c = p && startswith cs ps

/-- Python slice `l[a:-b]` (drop `a` from the front and `b` from the back,
empty when the bounds cross), with saturating `Nat` subtraction matching
Python's clamping. -/
def pySlice (l : List Char) (a b : Nat) : List Char :=
  (l.drop a).take (l.length - b - a)

/-- Substring containment, Python's `pat in s` for strings. -/
def containsSub : List Char → List Char → Bool
  | [], pat => startswith [] pat
  | c :: rest, pat => startswith (c :: rest) pat || containsSub rest pat

/-- Parsed JSON value as produced by `json.loads`.  Object members are kept
in parse order; lookup takes the last binding, matching Python `dict`
construction.  Numeric tokens keep their lexeme. -/
inductive Json where
  | null
  | bool (b : Bool)
  | num (lexeme : List Char)
  | str (s : List Char)
  | arr (elems : List Json)
  | obj (members : List (List Char × Json))

/-- Last binding of a key in an object member list (Python `dict` keeps the
last value written for a duplicated key). -/
def objLookup (ms : List (List Char × Json)) (k : List Char) : Option Json :=
  ms.foldl (fun acc p => if p.1 = k then some p.2 else acc) none

/-- Key membership, Python's `k in d` for a `dict`. -/
def Json.hasKey (j : Json) (k : List Char) : Bool :=
  match j with
  | .obj ms => (objLookup ms k).isSome
  | _ => false

/-- Hexadecimal digit value, for `\uXXXX` escapes. -/
def hexVal (c : Char) : Option Nat :=
  if '0' ≤ c ∧ c ≤ '9' then some (c.toNat - 48)
  else if 'a' ≤ c ∧ c ≤ 'f' then some (c.toNat - 87)
  else if 'A' ≤ c ∧ c ≤ 'F' then some (c.toNat - 55)
  else none

/-- Four hex digits to a code point. -/
def hex4 (a b c d : Char) : Option Nat := do
  let x ← hexVal a
  let y ← hexVal b
  let z ← hexVal c
  let w ← hexVal d
  pure (((x * 16 + y) * 16 + z) * 16 + w)

/-- Number token per the JSON grammar used by Python's scanner: after the
integer part, an optional fraction and exponent are taken greedily and
skipped (not failed) when malformed, like the scanner's regex. -/
def numAfterInt (lex : List Char) (l : List Char) : List Char × List Char :=
  let step1 : List Char × List Char :=
    match l with
    | c :: r =>
      if c = '.' then
        let ds := r.takeWhile (fun x => x.isDigit)
        if ds = [] then (lex, l) else (lex ++ c :: ds, r.dropWhile (fun x => x.isDigit))
      else (lex, l)
    | [] => (lex, l)
  match step1.2 with
  | c :: r =>
    if c = 'e' ∨ c = 'E' then
      let signAndRest : List Char × List Char :=
        match r with
        | s :: r2 => if s = '+' ∨ s = '-' then ([s], r2) else ([], r)
        | [] => ([], r)
      let ds := signAndRest.2.takeWhile (fun x => x.isDigit)
      if ds = [] then step1
      else (step1.1 ++ c :: (signAndRest.1 ++ ds), signAndRest.2.dropWhile (fun x => x.isDigit))
    else step1
  | [] => step1

/-- Number token starting at the current position ( `-` or a digit, or the
`Infinity`/`NaN` constants Python accepts by default are handled by the
dispatcher). -/
def parseNumber (l : List Char) : Option (List Char × List Char) :=
  let signed : List Char × List Char :=
    match l with
    | c :: r => if c = '-' then ([c], r) else ([], l)
    | [] => ([], l)
  match signed.2 with
  | [] => none
  | c :: r =>
    if c = '0' then some (numAfterInt (signed.1 ++ [c]) r)
    else if c.isDigit then
      let ds := (c :: r).takeWhile (fun x => x.isDigit)
      some (numAfterInt (signed.1 ++ ds) ((c :: r).dropWhile (fun x => x.isDigit)))
    else none

mutual

/-- String body after the opening quote: strict mode rejects raw control
characters, decodes the standard escapes and `\uXXXX` (surrogate pairs
combined). -/
def parseStringBody (fuel : Nat) (acc : List Char) (l : List Char) :
    Option (List Char × List Char) :=
  match fuel with
  | 0 => none
  | fuel + 1 =>
    match l with
    | [] => none
    | c :: rest =>
      if c = '"' then some (acc.reverse, rest)
      else if c = '\\' then
        match rest with
        | [] => none
        | e :: rest2 =>
          if e = '"' then parseStringBody fuel ('"' :: acc) rest2
          else if e = '\\' then parseStringBody fuel ('\\' :: acc) rest2
          else if e = '/' then parseStringBody fuel ('/' :: acc) rest2
          else if e = 'b' then parseStringBody fuel (Char.ofNat 8 :: acc) rest2
          else if e = 'f' then parseStringBody fuel (Char.ofNat 12 :: acc) rest2
          else if e = 'n' then parseStringBody fuel ('\n' :: acc) rest2
          else if e = 'r' then parseStringBody fuel ('\r' :: acc) rest2
          else if e = 't' then parseStringBody fuel ('\t' :: acc) rest2
          else if e = 'u' then
            match rest2 with
            | a :: b :: c2 :: d :: rest3 =>
              match hex4 a b c2 d with
              | none => none
              | some v =>
                if 0xD800 ≤ v ∧ v ≤ 0xDBFF then
                  match rest3 with
                  | '\\' :: 'u' :: a2 :: b2 :: c3 :: d2 :: rest4 =>
                    match hex4 a2 b2 c3 d2 with
                    | some v2 =>
                      if 0xDC00 ≤ v2 ∧ v2 ≤ 0xDFFF then
                        parseStringBody fuel
                          (Char.ofNat (0x10000 + (v - 0xD800) * 0x400 + (v2 - 0xDC00)) :: acc)
                          rest4
                      else parseStringBody fuel (Char.ofNat v :: acc) rest3
                    | none => parseStringBody fuel (Char.ofNat v :: acc) rest3
                  | _ => parseStringBody fuel (Char.ofNat v :: acc) rest3
                else parseStringBody fuel (Char.ofNat v :: acc) rest2
            | _ => none
          else none
      else if c.toNat < 32 then none
      else parseStringBody fuel (c :: acc) rest

/-- One JSON value at the current position, leading whitespace skipped. -/
def parseValue (fuel : Nat) (l : List Char) : Option (Json × List Char) :=
  match fuel with
  | 0 => none
  | fuel + 1 =>
    match skipWs l with
    | [] => none
    | c :: rest =>
      if c = '"' then
        match parseStringBody fuel [] rest with
        | some (s, r) => some (.str s, r)
        | none => none
      else if c = lbrace then
        match skipWs rest with
        | [] => none
        | d :: r2 =>
          if d = rbrace then some (.obj [], r2)
          else
            match parseMembers fuel [] (d :: r2) with
            | some (ms, r3) => some (.obj ms, r3)
            | none => none
      else if c = '[' then
        match skipWs rest with
        | [] => none
        | d :: r2 =>
          if d = ']' then some (.arr [], r2)
          else
            match parseElems fuel [] (d :: r2) with
            | some (xs, r3) => some (.arr xs, r3)
            | none => none
      else if c = 't' then
        if startswith rest ['r', 'u', 'e'] then some (.bool true, rest.drop 3) else none
      else if c = 'f' then
        if startswith rest ['a', 'l', 's', 'e'] then some (.bool false, rest.drop 4) else none
      else if c = 'n' then
        if startswith rest ['u', 'l', 'l'] then some (.null, rest.drop 3) else none
      else if c = 'N' then
        if startswith rest ['a', 'N'] then some (.num ['N', 'a', 'N'], rest.drop 2) else none
      else if c = 'I' then
        if startswith rest ['n', 'f', 'i', 'n', 'i', 't', 'y'] then
          some (.num ('I' :: ['n', 'f', 'i', 'n', 'i', 't', 'y']), rest.drop 7)
        else none
      else if c = '-' ∧ startswith rest ['I', 'n', 'f', 'i', 'n', 'i', 't', 'y'] then
        some (.num ('-' :: ['I', 'n', 'f', 'i', 'n', 'i', 't', 'y']), rest.drop 8)
      else if c = '-' ∨ c.isDigit then
        match parseNumber (c :: rest) with
        | some (lex, r) => some (.num lex, r)
        | none => none
      else none

/-- Object members after `{` when the object is non-empty: a quoted key,
a colon, a value, then a comma (more members required — a trailing comma
is a syntax error) or the closing brace. -/
def parseMembers (fuel : Nat) (acc : List (List Char × Json)) (l : List Char) :
    Option (List (List Char × Json) × List Char) :=
  match fuel with
  | 0 => none
  | fuel + 1 =>
    match l with
    | [] => none
    | c :: r =>
      if c = '"' then
        match parseStringBody fuel [] r with
        | some (k, r2) =>
          match skipWs r2 with
          | c2 :: r3 =>
            if c2 = ':' then
              match parseValue fuel r3 with
              | some (v, r4) =>
                match skipWs r4 with
                | c3 :: r5 =>
                  if c3 = ',' then parseMembers fuel ((k, v) :: acc) (skipWs r5)
                  else if c3 = rbrace then some (((k, v) :: acc).reverse, r5)
                  else none
                | [] => none
              | none => none
            else none
          | [] => none
        | none => none
      else none

/-- Array elements after `[` when the array is non-empty. -/
def parseElems (fuel : Nat) (acc : List Json) (l : List Char) :
    Option (List Json × List Char) :=
  match fuel with
  | 0 => none
  | fuel + 1 =>
    match parseValue fuel l with
    | some (v, r) =>
      match skipWs r with
      | c :: r2 =>
        if c = ',' then parseElems fuel (v :: acc) r2
        else if c = ']' then some ((v :: acc).reverse, r2)
        else none
      | [] => none
    | none => none

end

/-- Python's `json.loads`: parse one value and require only whitespace to
remain ("Extra data" otherwise).  Every fueled call in the parser consumes
at least one character of the input first, so `length + 2` fuel never runs
out on any input. -/
def jsonLoads (l : List Char) : Option Json :=
  match parseValue (l.length + 2) l with
  | some (j, rest) => if skipWs rest = [] then some j else none
  | none => none


mutual

/-- Python `repr` of a parsed JSON value (dicts and lists print with
single-quoted strings), used by `str(...)` on non-string values; the
string-escaping subtleties of `repr` are not needed by any claim. -/
def pyRepr : Json → List Char
  | .null => 'N' :: 'o' :: 'n' :: ['e']
  | .bool true => 'T' :: 'r' :: 'u' :: ['e']
  | .bool false => 'F' :: 'a' :: 'l' :: 's' :: ['e']
  | .num lex => lex
  | .str s => '\'' :: s ++ ['\'']
  | .arr xs => '[' :: commaJoin (pyReprList xs) ++ [']']
  | .obj ms => lbrace :: commaJoin (pyReprMembers ms) ++ [rbrace]

/-- `repr` of each array element. -/
def pyReprList : List Json → List (List Char)
  | [] => []
  | x :: xs => pyRepr x :: pyReprList xs

/-- `repr` of each dict member as `'key': value`. -/
def pyReprMembers : List (List Char × Json) → List (List Char)
  | [] => []
  | (k, v) :: ms => ('\'' :: k ++ '\'' :: ':' :: ' ' :: pyRepr v) :: pyReprMembers ms

/-- Join rendered pieces with `, `. -/
def commaJoin : List (List Char) → List Char
  | [] => []
  | [x] => x
  | x :: y :: rest => x ++ ',' :: ' ' :: commaJoin (y :: rest)

end

/-- Python `str(...)` applied to a parsed JSON value. -/
def pyStr (j : Json) : List Char :=
  match j with
  | .str s => s
  | j => pyRepr j

/-- Exceptions that the pipeline's `try` block can raise, as named by the
`except` clauses in `get_ai_plan` (lines 215-222). -/
inductive PyExc where
  | requestException
  | keyError
  | indexError
  | jsonDecodeError
  | typeError
  | otherError
deriving DecidableEq

/-- Python `k in container` for a string key: key membership for a dict,
element membership for a list, substring test for a string, and a
`TypeError` for the remaining parsed-JSON types. -/
def pyIn (k : List Char) (j : Json) : Except PyExc Bool :=
  match j with
  | .obj ms => .ok (objLookup ms k).isSome
  | .arr xs => .ok (xs.any (fun x => match x with | .str s => s = k | _ => false))
  | .str s => .ok (containsSub s k)
  | _ => .error .typeError

/-- Subscript key: the literal string keys and the integer index 0 used at
line 186 of the source. -/
inductive PyKey where
  | strKey (s : List Char)
  | intKey (i : Nat)

/-- Python `container[key]` on parsed-JSON values: dict lookup
(`KeyError` when absent, also for an integer key since parsed-JSON dict
keys are strings), list indexing (`IndexError` out of bounds,
`TypeError` for a string key), string indexing (a one-character string),
and `TypeError` on the scalar types. -/
def pyGetItem (j : Json) (k : PyKey) : Except PyExc Json :=
  match j, k with
  | .obj ms, .strKey s =>
    match objLookup ms s with
    | some v => .ok v
    | none => .error .keyError
  | .obj _, .intKey _ => .error .keyError
  | .arr xs, .intKey i =>
    if h : i < xs.length then .ok (xs.get ⟨i, h⟩) else .error .indexError
  | .arr _, .strKey _ => .error .typeError
  | .str s, .intKey i =>
    if h : i < s.length then .ok (.str [s.get ⟨i, h⟩]) else .error .indexError
  | .str _, .strKey _ => .error .typeError
  | _, _ => .error .typeError

/-- Key of the wrapped response shape. -/
def candidatesKey : List Char := "candidates".toList

/-- Required plan key. -/
def dietKey : List Char := "diet_plan".toList

/-- Required plan key. -/
def gymKey : List Char := "gym_plan".toList

/-- Line 186 of the source:
`str(response_data["candidates"][0]["content"]["parts"][0]["text"])`. -/
def planTextExtract (rd : Json) : Except PyExc (List Char) := do
  let c ← pyGetItem rd (.strKey candidatesKey)
  let c0 ← pyGetItem c (.intKey 0)
  let ct ← pyGetItem c0 (.strKey "content".toList)
  let p ← pyGetItem ct (.strKey "parts".toList)
  let p0 ← pyGetItem p (.intKey 0)
  let t ← pyGetItem p0 (.strKey "text".toList)
  pure (pyStr t)

/-- Opening fence with language tag, ```` ```json ````. -/
def fenceJson : List Char := backtick :: backtick :: backtick :: 'j' :: 's' :: 'o' :: ['n']

/-- Bare fence, ```` ``` ````. -/
def fenceBare : List Char := backtick :: backtick :: [backtick]

/-- Lines 189-192 of the source: if the stripped text starts with
```` ```json ````, keep `strip()[7:-4]`; else if it starts with a bare
fence, keep `strip()[3:-3]`; otherwise the text is left untouched
(unstripped). -/
def cleanFences (t : List Char) : List Char :=
  if startswith (pyStrip t) fenceJson then pySlice (pyStrip t) 7 4
  else if startswith (pyStrip t) fenceBare then pySlice (pyStrip t) 3 3
  else t

/-- Messages and raw-text boxes shown to the user via `st.error` and
`st.text_area`. -/
inductive Display where
  | errorBox (msg : List Char)
  | textBox (label : List Char) (value : List Char)
deriving DecidableEq

/-- Message at line 129. -/
def msgNoKey : List Char :=
  "Gemini API key is not set. Please add it to your Streamlit secrets.".toList

/-- Message at line 200. -/
def msgMissingKeys : List Char :=
  "API response missing required diet_plan or gym_plan keys".toList

/-- Message prefix at line 203 (the `JSONDecodeError` detail elided). -/
def msgJsonFail : List Char := "Failed to parse JSON response: ".toList

/-- Text-area label at lines 204 and 220. -/
def rawAiLabel : List Char := "Raw AI Response:".toList

/-- Message at line 211. -/
def msgUnexpectedFormat : List Char := "Unexpected API response format".toList

/-- Text-area label at line 212. -/
def rawApiLabel : List Char := "Raw API Response:".toList

/-- Message prefix at line 216. -/
def msgRequestFailed : List Char := "API request failed: ".toList

/-- Message prefix at line 218 (the apostrophe written by code point). -/
def msgParseAiFail : List Char :=
  "Failed to parse the AI".toList ++ Char.ofNat 39 :: "s response. Error: ".toList

/-- Message prefix at line 222. -/
def msgUnexpected : List Char := "Unexpected error: ".toList

/-- Lines 188-205 of the source, the spec's `parsePlan`: strip fences from
the extracted plan text, `json.loads` it (a failure is caught locally and
reported with the sanitized text shown), and require both plan keys.  The
key-membership checks re-enter the Python `in` operator, whose
`TypeError` on a non-container escapes to the outer handlers. -/
def parsePlan (planRaw : List Char) : Except PyExc (Option Json × List Display) := do
  let planText := cleanFences planRaw
  match jsonLoads planText with
  | some pj =>
    let hasD ← pyIn dietKey pj
    if hasD then
      let hasG ← pyIn gymKey pj
      if hasG then pure (some pj, [])
      else pure (none, [.errorBox msgMissingKeys])
    else pure (none, [.errorBox msgMissingKeys])
  | none => pure (none, [.errorBox msgJsonFail, .textBox rawAiLabel planText])

/-- Lines 184-213 of the source: dispatch on the `candidates` wrapper, then
either extract-and-parse the wrapped plan text or accept the direct
response shape. -/
def handleParsedResponse (rd : Json) (bodyText : List Char) :
    Except PyExc (Option Json × List Display) := do
  let hasC ← pyIn candidatesKey rd
  if hasC then
    let planRaw ← planTextExtract rd
    parsePlan planRaw
  else
    let hasD ← pyIn dietKey rd
    if hasD then
      let hasG ← pyIn gymKey rd
      if hasG then pure (some rd, [])
      else pure (none, [.errorBox msgUnexpectedFormat, .textBox rawApiLabel bodyText])
    else pure (none, [.errorBox msgUnexpectedFormat, .textBox rawApiLabel bodyText])

/-- Outcome of the `requests.post` call plus `raise_for_status`: a
transport-level failure (network error, timeout, or non-2xx status, all
`RequestException`s), an unexpected exception, or a response body. -/
inductive NetResult where
  | transportError
  | unexpectedError
  | success (body : List Char)

/-- The `try` block of `get_ai_plan` (lines 177-213): raise on network
failure, `json.loads` the response body (`response.json()` raising
`JSONDecodeError` on a malformed body), then handle the parsed shape. -/
def tryBlock (net : NetResult) : Except PyExc (Option Json × List Display) :=
  match net with
  | .transportError => .error .requestException
  | .unexpectedError => .error .otherError
  | .success body =>
    match jsonLoads body with
    | none => .error .jsonDecodeError
    | some rd => handleParsedResponse rd body

/-- The `except` clauses (lines 215-222): `RequestException`; then
`KeyError`/`IndexError`/`JSONDecodeError` with the raw response text shown
when a response exists; then any other exception. -/
def excDisplays (net : NetResult) (e : PyExc) : List Display :=
  match e with
  | .requestException => [.errorBox msgRequestFailed]
  | .keyError | .indexError | .jsonDecodeError =>
    .errorBox msgParseAiFail ::
      (match net with
       | .success body => [.textBox rawAiLabel body]
       | _ => [])
  | .typeError | .otherError => [.errorBox msgUnexpected]

/-- Python truthiness of the optional API key: `None` and the empty string
are falsy. -/
def pyTruthy : Option (List Char) → Bool
  | none => false
  | some [] => false
  | some (_ :: _) => true

/-- Result of one run of `get_ai_plan`: the returned value (the plan dict
or `None`), everything displayed, and whether the network request at
line 177 was reached. -/
structure GetAiPlanOut where
  result : Option Json
  displayed : List Display
  requested : Bool

/-- `get_ai_plan` (lines 126-224): refuse without an API key before any
request; otherwise run the `try` block and convert every raised exception
to displayed messages, returning `None`.  The prompt-building and
`user_info` coercion (lines 133-174) only affect the outbound prompt
text, which no claim inspects. -/
def get_ai_plan (apiKey : Option (List Char)) (net : NetResult) : GetAiPlanOut :=
  if pyTruthy apiKey then
    match tryBlock net with
    | .ok (res, ds) => ⟨res, ds, true⟩
    | .error e => ⟨none, excDisplays net e, true⟩
  else ⟨none, [.errorBox msgNoKey], false⟩

/-- Message at line 119. -/
def msgAge : List Char := "Age must be between 13 and 100 years.".toList

/-- Message at line 121. -/
def msgHeight : List Char := "Height must be between 100 and 250 cm.".toList

/-- Message at line 123. -/
def msgWeight : List Char := "Weight must be between 30 and 300 kg.".toList

/-- `validate_user_inputs` (lines 108-124) on integer inputs; the `int()`
coercion guard for non-numeric input (lines 111-116) is outside the
integer domain modeled here. -/
def validate_user_inputs (age height weight : Int) : Bool × List Char :=
  if age < 13 ∨ 100 < age then (false, msgAge)
  else if height < 100 ∨ 250 < height then (false, msgHeight)
  else if weight < 30 ∨ 300 < weight then (false, msgWeight)
  else (true, [])

/-- Round half to even, as Python's `round`. -/
def roundHalfEven (q : ℚ) : ℤ :=
  if q - ⌊q⌋ < 1 / 2 then ⌊q⌋
  else if 1 / 2 < q - ⌊q⌋ then ⌊q⌋ + 1
  else if ⌊q⌋ % 2 = 0 then ⌊q⌋ else ⌊q⌋ + 1

/-- Python `round(x, 2)`, exactly over the rationals. -/
def pyRound2 (q : ℚ) : ℚ := (roundHalfEven (q * 100) : ℚ) / 100

/-- BMI at line 259 of the source:
`round(float(weight) / ((float(height) / 100.0) ** 2), 2)`. -/
def bmi (height weight : ℚ) : ℚ := pyRound2 (weight / ((height / 100) ^ 2))

/-- The candidates-wrapped response value carrying plan text `t`:
`\x7b"candidates": [\x7b"content": \x7b"parts": [\x7b"text": t\x7d]\x7d\x7d]\x7d`. -/
def candidatesJson (t : List Char) : Json :=
  .obj [(candidatesKey, .arr [.obj [("content".toList,
    .obj [("parts".toList, .arr [.obj [("text".toList, .str t)]])])]])]

/-- Fenced form of a plan text: ```` ```json ````, the text, a newline and
the closing fence. -/
def fenceWrap (m : List Char) : List Char := fenceJson ++ m ++ '\n' :: fenceBare

/-- Whether a pipeline step produced a plan (a non-`None` return). -/
def planOk : Except PyExc (Option Json × List Display) → Bool
  | .ok (some _, _) => true
  | _ => false

/-- Plan text with both fields and a trailing comma before the brace. -/
def trailCommaText : List Char := "\x7b\"diet_plan\":\"A\",\"gym_plan\":\"B\",\x7d".toList

/-- The same plan text without the trailing comma. -/
def cleanPairText : List Char := "\x7b\"diet_plan\":\"A\",\"gym_plan\":\"B\"\x7d".toList

/-- The parsed plan object for `cleanPairText`. -/
def planAB : Json := .obj [(dietKey, .str ['A']), (gymKey, .str ['B'])]

/-- Plan text lacking the gym plan. -/
def dietOnlyText : List Char := "\x7b\"diet_plan\":\"A\"\x7d".toList

/-- Plan text lacking the diet plan. -/
def gymOnlyText : List Char := "\x7b\"gym_plan\":\"B\"\x7d".toList

end FitAI

namespace FitAI

theorem ok_bind {α β ε : Type} (a : α) (f : α → Except ε β) :
    (Except.ok a >>= f) = f a := rfl

theorem error_bind {α β ε : Type} (e : ε) (f : α → Except ε β) :
    ((Except.error e : Except ε α) >>= f) = Except.error e := rfl

theorem isDigit_not_pyWs {c : Char} (hd : c.isDigit = true) : isPyWs c = false := by
  cases hc : isPyWs c
  · rfl
  · exfalso
    simp only [isPyWs, Bool.or_eq_true, decide_eq_true_eq] at hc
    rcases hc with ((((h | h) | h) | h) | h) | h <;> subst h <;> exact absurd hd (by decide)

theorem isDigit_ne_backtick {c : Char} (hd : c.isDigit = true) : c ≠ backtick := by
  intro h
  subst h
  exact absurd hd (by decide)

theorem jsonWs_pyWs {c : Char} (h : isJsonWs c = true) : isPyWs c = true := by
  simp only [isJsonWs, Bool.or_eq_true, decide_eq_true_eq] at h
  rcases h with ((h | h) | h) | h <;> subst h <;> decide

theorem dropWhile_head_false {p : Char → Bool} {l : List Char} {c : Char} {r : List Char}
    (h : l.dropWhile p = c :: r) : p c = false := by
  induction l with
  | nil => simp at h
  | cons y ys ih =>
    rw [List.dropWhile_cons] at h
    by_cases hy : p y = true
    · rw [if_pos hy] at h; exact ih h
    · rw [if_neg hy] at h
      obtain ⟨rfl, -⟩ := List.cons.injEq y ys c r ▸ h
      simpa using hy

theorem parseValue_head {fuel : Nat} {l : List Char} {x : Json × List Char}
    (h : parseValue fuel l = some x) :
    ∃ c r, skipWs l = c :: r ∧ isPyWs c = false ∧ c ≠ backtick := by
  cases fuel with
  | zero => exact absurd h (by simp [parseValue])
  | succ fuel =>
    rw [parseValue] at h
    cases hsw : skipWs l with
    | nil => rw [hsw] at h; dsimp only at h; exact absurd h (by simp)
    | cons c rest =>
      have hjws : isJsonWs c = false := dropWhile_head_false hsw
      rw [hsw] at h
      dsimp only at h
      by_cases h1 : c = '"'
      · subst h1; exact ⟨_, rest, rfl, by decide, by decide⟩
      rw [if_neg h1] at h
      by_cases h2 : c = lbrace
      · subst h2; exact ⟨_, rest, rfl, by decide, by decide⟩
      rw [if_neg h2] at h
      by_cases h3 : c = '['
      · subst h3; exact ⟨_, rest, rfl, by decide, by decide⟩
      rw [if_neg h3] at h
      by_cases h4 : c = 't'
      · subst h4; exact ⟨_, rest, rfl, by decide, by decide⟩
      rw [if_neg h4] at h
      by_cases h5 : c = 'f'
      · subst h5; exact ⟨_, rest, rfl, by decide, by decide⟩
      rw [if_neg h5] at h
      by_cases h6 : c = 'n'
      · subst h6; exact ⟨_, rest, rfl, by decide, by decide⟩
      rw [if_neg h6] at h
      by_cases h7 : c = 'N'
      · subst h7; exact ⟨_, rest, rfl, by decide, by decide⟩
      rw [if_neg h7] at h
      by_cases h8 : c = 'I'
      · subst h8; exact ⟨_, rest, rfl, by decide, by decide⟩
      rw [if_neg h8] at h
      by_cases h9 : c = '-' ∧ startswith rest ['I', 'n', 'f', 'i', 'n', 'i', 't', 'y'] = true
      · obtain ⟨h9a, -⟩ := h9; subst h9a; exact ⟨_, rest, rfl, by decide, by decide⟩
      rw [if_neg h9] at h
      by_cases h10 : c = '-' ∨ c.isDigit = true
      · rcases h10 with h10 | h10
        · subst h10; exact ⟨_, rest, rfl, by decide, by decide⟩
        · exact ⟨c, rest, rfl, isDigit_not_pyWs h10, isDigit_ne_backtick h10⟩
      rw [if_neg h10] at h
      exact absurd h (by simp)

theorem dropWhile_all_append {p : Char → Bool} :
    ∀ (xs : List Char), (∀ x ∈ xs, p x = true) → ∀ {c : Char}, p c = false →
      ∀ (r : List Char), (xs ++ c :: r).dropWhile p = c :: r := by
  intro xs
  induction xs with
  | nil => intro _ c hc r; simp [List.dropWhile_cons, hc]
  | cons y ys ih =>
    intro hall c hc r
    have hy : p y = true := hall y (by simp)
    simp only [List.cons_append, List.dropWhile_cons, hy, if_true]
    exact ih (fun x hx => hall x (by simp [hx])) hc r

theorem dropWhile_append_last {p : Char → Bool} {c : Char} (hc : p c = false) :
    ∀ xs : List Char, ∃ z, (xs ++ [c]).dropWhile p = z ++ [c] := by
  intro xs
  induction xs with
  | nil => exact ⟨[], by simp [List.dropWhile_cons, hc]⟩
  | cons y ys ih =>
    by_cases hy : p y = true
    · obtain ⟨z, hz⟩ := ih
      exact ⟨z, by simp [List.dropWhile_cons, hy, hz]⟩
    · exact ⟨y :: ys, by simp [List.dropWhile_cons, hy]⟩

theorem pyStrip_head {t : List Char} {c : Char} {r : List Char}
    (h : t.dropWhile isPyWs = c :: r) (hc : isPyWs c = false) :
    ∃ z, pyStrip t = c :: z := by
  obtain ⟨z, hz⟩ := dropWhile_append_last hc r.reverse
  refine ⟨z.reverse, ?_⟩
  unfold pyStrip
  rw [h, show (c :: r).reverse = r.reverse ++ [c] by simp, hz]
  simp

theorem dropPyWs_of_skipWs {t : List Char} {c : Char} {r : List Char}
    (h : skipWs t = c :: r) (hc : isPyWs c = false) :
    t.dropWhile isPyWs = c :: r := by
  unfold skipWs at h
  have hdecomp : t.takeWhile isJsonWs ++ (c :: r) = t := by
    rw [← h]; exact List.takeWhile_append_dropWhile isJsonWs t
  calc t.dropWhile isPyWs
      = ((t.takeWhile isJsonWs) ++ (c :: r)).dropWhile isPyWs := by rw [hdecomp]
    _ = c :: r :=
        dropWhile_all_append _ (fun x hx => jsonWs_pyWs (List.mem_takeWhile_imp hx)) hc r

theorem cleanFences_eq_self {t : List Char} {c : Char} {z : List Char}
    (h : pyStrip t = c :: z) (hb : c ≠ backtick) : cleanFences t = t := by
  unfold cleanFences
  rw [h]
  rw [show startswith (c :: z) fenceJson = false by simp [startswith, fenceJson, hb]]
  rw [show startswith (c :: z) fenceBare = false by simp [startswith, fenceBare, hb]]
  simp

theorem jsonLoads_eq_some {t : List Char} {j : Json} (h : jsonLoads t = some j) :
    ∃ rest, parseValue (t.length + 2) t = some (j, rest) := by
  unfold jsonLoads at h
  cases hp : parseValue (t.length + 2) t with
  | none => rw [hp] at h; exact absurd h (by simp)
  | some pr =>
    obtain ⟨j2, rest⟩ := pr
    rw [hp] at h
    dsimp only at h
    split_ifs at h
    · obtain rfl : j2 = j := Option.some_inj.mp h
      exact ⟨rest, rfl⟩

theorem cleanFences_of_loads {t : List Char} {j : Json} (h : jsonLoads t = some j) :
    cleanFences t = t := by
  obtain ⟨rest, hp⟩ := jsonLoads_eq_some h
  obtain ⟨c, r, hsw, hws, hbt⟩ := parseValue_head hp
  obtain ⟨z, hz⟩ := pyStrip_head (dropPyWs_of_skipWs hsw hws) hws
  exact cleanFences_eq_self hz hbt

end FitAI

namespace FitAI

theorem parsePlan_obj {t : List Char} {ms : List (List Char × Json)}
    (h : jsonLoads t = some (.obj ms)) :
    parsePlan t =
      if (objLookup ms dietKey).isSome then
        if (objLookup ms gymKey).isSome then .ok (some (.obj ms), [])
        else .ok (none, [.errorBox msgMissingKeys])
      else .ok (none, [.errorBox msgMissingKeys]) := by
  have hc : cleanFences t = t := cleanFences_of_loads h
  unfold parsePlan
  dsimp only
  rw [hc, h]
  dsimp only
  simp only [pyIn, ok_bind]
  by_cases hd : (objLookup ms dietKey).isSome = true
  · rw [if_pos hd, if_pos hd]
    by_cases hg : (objLookup ms gymKey).isSome = true
    · rw [if_pos hg, if_pos hg]; rfl
    · rw [if_neg hg, if_neg hg]; rfl
  · rw [if_neg hd, if_neg hd]; rfl

theorem handleParsedResponse_direct {ms : List (List Char × Json)} {b : List Char}
    (hc : (objLookup ms candidatesKey).isSome = false)
    (hd : (objLookup ms dietKey).isSome = true)
    (hg : (objLookup ms gymKey).isSome = true) :
    handleParsedResponse (.obj ms) b = .ok (some (.obj ms), []) := by
  unfold handleParsedResponse
  simp only [pyIn, ok_bind, hc, hd, hg]
  rfl

theorem handleParsedResponse_wrapped (t b : List Char) :
    handleParsedResponse (candidatesJson t) b = parsePlan t := by
  unfold handleParsedResponse
  rw [show pyIn candidatesKey (candidatesJson t) = .ok true from rfl, ok_bind,
    if_pos rfl, show planTextExtract (candidatesJson t) = .ok t from rfl, ok_bind]

theorem parsePlan_none_displayed {raw : List Char} {ds : List Display}
    (h : parsePlan raw = .ok (none, ds)) : ds ≠ [] := by
  unfold parsePlan at h
  dsimp only at h
  cases hj : jsonLoads (cleanFences raw) with
  | none =>
    rw [hj] at h
    dsimp only at h
    simp only [pure, Except.pure, Except.ok.injEq, Prod.mk.injEq] at h
    rw [← h.2]
    simp
  | some pj =>
    rw [hj] at h
    dsimp only at h
    cases hD : pyIn dietKey pj with
    | error e => rw [hD, error_bind] at h; exact absurd h (by simp)
    | ok bD =>
      rw [hD, ok_bind] at h
      cases bD with
      | false =>
        simp only [Bool.false_eq_true, if_false] at h
        simp only [pure, Except.pure, Except.ok.injEq, Prod.mk.injEq] at h
        rw [← h.2]
        simp
      | true =>
        simp only [if_true] at h
        cases hG : pyIn gymKey pj with
        | error e => rw [hG, error_bind] at h; exact absurd h (by simp)
        | ok bG =>
          rw [hG, ok_bind] at h
          cases bG with
          | false =>
            simp only [Bool.false_eq_true, if_false] at h
            simp only [pure, Except.pure, Except.ok.injEq, Prod.mk.injEq] at h
            rw [← h.2]
            simp
          | true =>
            simp only [if_true] at h
            simp only [pure, Except.pure, Except.ok.injEq, Prod.mk.injEq] at h
            exact absurd h.1 (by simp)

theorem handleParsedResponse_none_displayed {rd : Json} {b : List Char} {ds : List Display}
    (h : handleParsedResponse rd b = .ok (none, ds)) : ds ≠ [] := by
  unfold handleParsedResponse at h
  cases hC : pyIn candidatesKey rd with
  | error e => rw [hC, error_bind] at h; exact absurd h (by simp)
  | ok bC =>
    rw [hC, ok_bind] at h
    cases bC with
    | true =>
      simp only [if_true] at h
      cases hE : planTextExtract rd with
      | error e => rw [hE, error_bind] at h; exact absurd h (by simp)
      | ok raw =>
        rw [hE, ok_bind] at h
        exact parsePlan_none_displayed h
    | false =>
      simp only [Bool.false_eq_true, if_false] at h
      cases hD : pyIn dietKey rd with
      | error e => rw [hD, error_bind] at h; exact absurd h (by simp)
      | ok bD =>
        rw [hD, ok_bind] at h
        cases bD with
        | false =>
          simp only [Bool.false_eq_true, if_false] at h
          simp only [pure, Except.pure, Except.ok.injEq, Prod.mk.injEq] at h
          rw [← h.2]
          simp
        | true =>
          simp only [if_true] at h
          cases hG : pyIn gymKey rd with
          | error e => rw [hG, error_bind] at h; exact absurd h (by simp)
          | ok bG =>
            rw [hG, ok_bind] at h
            cases bG with
            | false =>
              simp only [Bool.false_eq_true, if_false] at h
              simp only [pure, Except.pure, Except.ok.injEq, Prod.mk.injEq] at h
              rw [← h.2]
              simp
            | true =>
              simp only [if_true] at h
              simp only [pure, Except.pure, Except.ok.injEq, Prod.mk.injEq] at h
              exact absurd h.1 (by simp)

theorem excDisplays_ne_nil (net : NetResult) (e : PyExc) : excDisplays net e ≠ [] := by
  cases e <;> cases net <;> simp [excDisplays]

theorem tryBlock_none_displayed {net : NetResult} {ds : List Display}
    (h : tryBlock net = .ok (none, ds)) : ds ≠ [] := by
  cases net with
  | transportError => exact absurd h (by simp [tryBlock])
  | unexpectedError => exact absurd h (by simp [tryBlock])
  | success body =>
    unfold tryBlock at h
    dsimp only at h
    cases hj : jsonLoads body with
    | none => rw [hj] at h; exact absurd h (by simp)
    | some rd =>
      rw [hj] at h
      exact handleParsedResponse_none_displayed h

end FitAI

namespace FitAI

/-- Claim C1, counterexample: the trailing-comma input
`\x7b"diet_plan":"A","gym_plan":"B",\x7d` is NOT repaired — `parsePlan`
returns a JSON parse failure (`None` plus the error message and the text
shown), not a success with the two fields, because the code at lines
188-205 contains no trailing-comma removal and `json.loads` rejects
trailing commas. -/
theorem c1_trailing_comma_counterexample :
    parsePlan trailCommaText =
      .ok (none, [.errorBox msgJsonFail, .textBox rawAiLabel trailCommaText]) ∧
    planOk (parsePlan trailCommaText) = false := ⟨rfl, rfl⟩

/-- Claim C1, amended: `parsePlan` performs no trailing-comma repair; the
trailing-comma input fails JSON parsing and is reported (with the text
displayed), while the same text without the trailing comma parses
successfully to the two fields. -/
theorem c1_no_trailing_comma_repair :
    parsePlan trailCommaText =
      .ok (none, [.errorBox msgJsonFail, .textBox rawAiLabel trailCommaText]) ∧
    parsePlan cleanPairText = .ok (some planAB, []) := ⟨rfl, rfl⟩

/-- Claim C2, counterexample: for fenced JSON with no newline before the
closing fence, the slice `strip()[7:-4]` eats the final `\x7d`, so parsing
fails while the unfenced text succeeds — the fenced and unfenced results
differ, refuting "removes exactly the fence markers" and "yields the same
PlanResult" for every fenced input. -/
theorem c2_fence_counterexample :
    parsePlan (fenceJson ++ cleanPairText ++ fenceBare) =
      .ok (none, [.errorBox msgJsonFail,
        .textBox rawAiLabel "\x7b\"diet_plan\":\"A\",\"gym_plan\":\"B\"".toList]) ∧
    parsePlan cleanPairText = .ok (some planAB, []) ∧
    planOk (parsePlan (fenceJson ++ cleanPairText ++ fenceBare)) = false ∧
    planOk (parsePlan cleanPairText) = true := ⟨rfl, rfl, rfl, rfl⟩

theorem startswith_append_self (p l : List Char) : startswith (p ++ l) p = true := by
  induction p with
  | nil => simp [startswith]
  | cons c cs ih => simp [startswith, ih]

theorem pyStrip_sandwich {c1 c2 : Char} (h1 : isPyWs c1 = false) (h2 : isPyWs c2 = false)
    (mid : List Char) : pyStrip (c1 :: (mid ++ [c2])) = c1 :: (mid ++ [c2]) := by
  unfold pyStrip
  rw [List.dropWhile_cons, if_neg (by simp [h1])]
  rw [show (c1 :: (mid ++ [c2])).reverse = c2 :: (mid.reverse ++ [c1]) by simp]
  rw [List.dropWhile_cons, if_neg (by simp [h2])]
  simp

theorem cleanFences_fenceWrap (m : List Char) : cleanFences (fenceWrap m) = m := by
  have hshape : fenceWrap m =
      backtick :: ((backtick :: backtick :: 'j' :: 's' :: 'o' :: 'n' ::
        (m ++ ['\n', backtick, backtick])) ++ [backtick]) := by
    simp [fenceWrap, fenceJson, fenceBare]
  have hstrip : pyStrip (fenceWrap m) = fenceWrap m := by
    rw [hshape]
    exact pyStrip_sandwich (by decide) (by decide) _
  have hstarts : startswith (fenceWrap m) fenceJson = true := by
    rw [show fenceWrap m = fenceJson ++ (m ++ '\n' :: fenceBare) by simp [fenceWrap]]
    exact startswith_append_self _ _
  have hlen : (fenceWrap m).length - 4 - 7 = m.length := by
    simp [fenceWrap, fenceJson, fenceBare]
  unfold cleanFences
  rw [hstrip, hstarts, if_pos rfl]
  unfold pySlice
  rw [hlen]
  rw [show fenceWrap m = fenceJson ++ (m ++ '\n' :: fenceBare) by simp [fenceWrap]]
  rw [show (7 : Nat) = fenceJson.length from rfl, List.drop_left]
  exact List.take_left _ _

/-- Claim C2, amended: when the fenced text consists of exactly the
```` ```json ```` opener, the JSON document, a newline and the closing
fence, the slice removes the fences (and the newline) and `parsePlan`
yields the same result as on the unfenced text.  (In general the code
removes the trimmed text's first 7 and last 4 characters, which equals
"exactly the fence markers" only when a newline precedes the closing
fence, as the counterexample shows.) -/
theorem c2_fenced_with_newline_equiv (m : List Char) (j : Json)
    (h : jsonLoads m = some j) :
    parsePlan (fenceWrap m) = parsePlan m := by
  have h1 : cleanFences (fenceWrap m) = m := cleanFences_fenceWrap m
  have h2 : cleanFences m = m := cleanFences_of_loads h
  unfold parsePlan
  dsimp only
  rw [h1, h2]

/-- Claim C2, witness: the amended equivalence at the concrete example. -/
theorem c2_witness : parsePlan (fenceWrap cleanPairText) = parsePlan cleanPairText :=
  c2_fenced_with_newline_equiv cleanPairText planAB rfl

/-- Claim C3, counterexample: the code's missing-key error is the fixed
message naming both required keys, identical whichever field is absent —
it does not name the absent field, and in particular
`\x7b"diet_plan":"A"\x7d` does not produce an error naming `gym_plan`. -/
theorem c3_generic_error_counterexample :
    parsePlan dietOnlyText = .ok (none, [.errorBox msgMissingKeys]) ∧
    parsePlan gymOnlyText = .ok (none, [.errorBox msgMissingKeys]) ∧
    parsePlan dietOnlyText = parsePlan gymOnlyText := ⟨rfl, rfl, rfl⟩

/-- Claim C3, amended: for every successfully parsed response object that
lacks the diet-plan field or the gym-plan field, `parsePlan` returns
`None` with the single fixed error message
"API response missing required diet_plan or gym_plan keys" (which names
both required keys, not the specific absent one). -/
theorem c3_missing_key_generic (t : List Char) (ms : List (List Char × Json))
    (h : jsonLoads t = some (.obj ms))
    (hmiss : ((objLookup ms dietKey).isSome && (objLookup ms gymKey).isSome) = false) :
    parsePlan t = .ok (none, [.errorBox msgMissingKeys]) := by
  rw [parsePlan_obj h]
  by_cases hd : (objLookup ms dietKey).isSome = true
  · have hg : ¬((objLookup ms gymKey).isSome = true) := by
      intro hg
      rw [hd, hg] at hmiss
      simp at hmiss
    rw [if_pos hd, if_neg hg]
  · rw [if_neg hd]

/-- Claim C3, witness: the amended statement at `\x7b"diet_plan":"A"\x7d`. -/
theorem c3_witness : parsePlan dietOnlyText = .ok (none, [.errorBox msgMissingKeys]) :=
  c3_missing_key_generic dietOnlyText [(dietKey, .str ['A'])] rfl rfl

/-- Claim C4: a direct response object carrying both plan fields (and no
`candidates` wrapper) is accepted, and yields the same returned plan as
the candidates-wrapped response whose inner text parses to that same
object. -/
theorem c4_direct_matches_wrapped {t b b2 : List Char} {j : Json}
    (hp : jsonLoads t = some j)
    (hd : j.hasKey dietKey = true) (hg : j.hasKey gymKey = true)
    (hc : j.hasKey candidatesKey = false) :
    handleParsedResponse j b = .ok (some j, []) ∧
    handleParsedResponse (candidatesJson t) b2 = .ok (some j, []) := by
  cases j with
  | obj ms =>
    simp only [Json.hasKey] at hd hg hc
    refine ⟨handleParsedResponse_direct hc hd hg, ?_⟩
    rw [handleParsedResponse_wrapped, parsePlan_obj hp, if_pos hd, if_pos hg]
  | null => exact absurd hd (by simp [Json.hasKey])
  | bool bb => exact absurd hd (by simp [Json.hasKey])
  | num lex => exact absurd hd (by simp [Json.hasKey])
  | str s => exact absurd hd (by simp [Json.hasKey])
  | arr xs => exact absurd hd (by simp [Json.hasKey])

/-- Claim C4, witness: both shapes at the concrete two-field object. -/
theorem c4_witness :
    handleParsedResponse planAB [] = .ok (some planAB, []) ∧
    handleParsedResponse (candidatesJson cleanPairText) [] = .ok (some planAB, []) :=
  c4_direct_matches_wrapped rfl rfl rfl rfl

/-- Claim C5: every in-range integer triple validates, and every
out-of-range triple is rejected with one of the three specific messages,
tied to a field that is actually out of range — never a generic failure. -/
theorem c5_validate_ranges (age height weight : ℤ) :
    ((13 ≤ age ∧ age ≤ 100 ∧ 100 ≤ height ∧ height ≤ 250 ∧ 30 ≤ weight ∧ weight ≤ 300) →
      validate_user_inputs age height weight = (true, [])) ∧
    (¬(13 ≤ age ∧ age ≤ 100 ∧ 100 ≤ height ∧ height ≤ 250 ∧ 30 ≤ weight ∧ weight ≤ 300) →
      (validate_user_inputs age height weight).1 = false ∧
      (((validate_user_inputs age height weight).2 = msgAge ∧ (age < 13 ∨ 100 < age)) ∨
       ((validate_user_inputs age height weight).2 = msgHeight ∧ (height < 100 ∨ 250 < height)) ∨
       ((validate_user_inputs age height weight).2 = msgWeight ∧ (weight < 30 ∨ 300 < weight)))) := by
  unfold validate_user_inputs
  split_ifs with h1 h2 h3
  · exact ⟨fun hin => by exfalso; omega, fun _ => ⟨rfl, .inl ⟨rfl, h1⟩⟩⟩
  · exact ⟨fun hin => by exfalso; omega, fun _ => ⟨rfl, .inr (.inl ⟨rfl, h2⟩)⟩⟩
  · exact ⟨fun hin => by exfalso; omega, fun _ => ⟨rfl, .inr (.inr ⟨rfl, h3⟩)⟩⟩
  · exact ⟨fun _ => rfl, fun hout => by exfalso; omega⟩

/-- Claim C5, witness: an in-range triple validates and an out-of-range
triple is rejected. -/
theorem c5_witness :
    validate_user_inputs 25 170 70 = (true, []) ∧
    (validate_user_inputs 0 170 70).1 = false :=
  ⟨(c5_validate_ranges 25 170 70).1 (by decide),
   ((c5_validate_ranges 0 170 70).2 (by decide)).1⟩

/-- Claim C9: with several fields out of range, only the first violation
in the order age, height, weight is reported. -/
theorem c9_first_violation (age height weight : ℤ) :
    ((age < 13 ∨ 100 < age) →
      validate_user_inputs age height weight = (false, msgAge)) ∧
    ((13 ≤ age ∧ age ≤ 100) → (height < 100 ∨ 250 < height) →
      validate_user_inputs age height weight = (false, msgHeight)) ∧
    ((13 ≤ age ∧ age ≤ 100 ∧ 100 ≤ height ∧ height ≤ 250) → (weight < 30 ∨ 300 < weight) →
      validate_user_inputs age height weight = (false, msgWeight)) := by
  unfold validate_user_inputs
  split_ifs with h1 h2 h3 <;> refine ⟨?_, ?_, ?_⟩ <;> intros <;>
    first
    | rfl
    | (exfalso; omega)

/-- Claim C9, witness: age 200 with height 50 reports the age error. -/
theorem c9_witness : validate_user_inputs 200 50 70 = (false, msgAge) :=
  (c9_first_violation 200 50 70).1 (by decide)

/-- Claim C6, counterexample: for the fenced non-JSON text
```` ```json\nnotjson\n``` ```` the parse failure shows the sanitized
(fence-stripped) text, which differs from the raw response text — the raw
text itself is not preserved in the displayed failure. -/
theorem c6_raw_text_counterexample :
    parsePlan "```json\nnotjson\n```".toList =
      .ok (none, [.errorBox msgJsonFail, .textBox rawAiLabel ('\n' :: "notjson".toList)]) ∧
    ('\n' :: "notjson".toList) ≠ "```json\nnotjson\n```".toList := ⟨rfl, by decide⟩

/-- Claim C6, amended: when the inner JSON parse fails, the failure is
never silently discarded — the fence-stripped plan text (equal to the raw
text whenever no fence was stripped) is preserved and shown alongside the
error message. -/
theorem c6_parse_failure_shows_text (t : List Char)
    (h : jsonLoads (cleanFences t) = none) :
    parsePlan t = .ok (none, [.errorBox msgJsonFail, .textBox rawAiLabel (cleanFences t)]) := by
  unfold parsePlan
  dsimp only
  rw [h]
  rfl

/-- Claim C6, witness: an unfenced garbage text is shown verbatim. -/
theorem c6_witness :
    parsePlan "notjson".toList =
      .ok (none, [.errorBox msgJsonFail, .textBox rawAiLabel (cleanFences "notjson".toList)]) :=
  c6_parse_failure_shows_text _ rfl

/-- Claim C7: with no API key, `get_ai_plan` reports the configuration
error, returns `None`, and never reaches the network request, for every
possible network behavior. -/
theorem c7_no_key_no_request (net : NetResult) :
    get_ai_plan none net = ⟨none, [.errorBox msgNoKey], false⟩ := rfl

/-- Claim C8: the BMI computation is a pure function of height and weight
(deterministic by definition), and at height 170 cm and weight 70 kg it
yields exactly 24.22 after rounding to two decimals. -/
theorem c8_bmi_value : bmi 170 70 = 2422 / 100 := by
  have hq : (70 : ℚ) / ((170 / 100) ^ 2) * 100 = 700000 / 289 := by norm_num
  have hf : ⌊(700000 : ℚ) / 289⌋ = 2422 := by
    rw [Int.floor_eq_iff]
    constructor <;> norm_num
  unfold bmi pyRound2 roundHalfEven
  rw [hq, hf]
  rw [if_pos (by norm_num)]
  norm_num

/-- Claim C10: for every API-key state and every network outcome,
`get_ai_plan` is total — it returns either a plan object or `None`, and
in the `None` case something was displayed (every failure path is caught
and converted to a message; no exception escapes). -/
theorem c10_no_uncaught (key : Option (List Char)) (net : NetResult) :
    (∃ p, (get_ai_plan key net).result = some p) ∨
    ((get_ai_plan key net).result = none ∧ (get_ai_plan key net).displayed ≠ []) := by
  unfold get_ai_plan
  by_cases hk : pyTruthy key = true
  · rw [if_pos hk]
    cases ht : tryBlock net with
    | ok pr =>
      obtain ⟨res, ds⟩ := pr
      cases res with
      | some p => left; exact ⟨p, rfl⟩
      | none => right; exact ⟨rfl, tryBlock_none_displayed ht⟩
    | error e => right; exact ⟨rfl, excDisplays_ne_nil net e⟩
  · rw [if_neg hk]
    right
    exact ⟨rfl, by simp⟩

end FitAI
